import Mathlib

/-!
Verification of the pacing engine of the ez-teleprompter application
(src/src/App.jsx).  Strings are modelled as lists of characters, JS
numbers as rationals, and the React component's mutable state as an
explicit state record with an operational step semantics for the
timeout callbacks.
-/

namespace Teleprompter

/-! ### Character and list utilities (JS string primitives) -/

/-- JS regex class check for a lower-case ASCII letter, as in `[^a-z]`. -/
def isAsciiLower (c : Char) : Bool := 'a' ≤ c && c ≤ 'z'

/-- JS regex class check for an ASCII letter, as in `[^a-zA-Z]`. -/
def isAsciiLetter (c : Char) : Bool :=
  ('a' ≤ c && c ≤ 'z') || ('A' ≤ c && c ≤ 'Z')

/-- Model of `word.toLowerCase().replace(/[^a-z]/g, '')` from
`estimateSyllables` (App.jsx line 517). -/
def cleanLetters (w : List Char) : List Char :=
  (w.map Char.toLower).filter isAsciiLower

/-- Model of `word.replace(/[^a-zA-Z]/g, '')` from `getWordWeight`
(App.jsx line 539). -/
def cleanAlpha (w : List Char) : List Char :=
  w.filter isAsciiLetter

/-- Model of JS `String.prototype.startsWith` on character lists. -/
def startsWithChars : List Char → List Char → Bool
  | [], _ => true
  | _ :: _, [] => false
  | p :: ps, c :: cs => p = c && startsWithChars ps cs

/-- Model of JS `String.prototype.endsWith` on character lists. -/
def endsWithChars (suf cs : List Char) : Bool :=
  startsWithChars suf.reverse cs.reverse

/-! ### Weight model: estimateSyllables (App.jsx lines 516-535) -/

/-- The vowel set used by the syllable estimator: `'aeiouy'`. -/
def isVowel (c : Char) : Bool := c ∈ ['a', 'e', 'i', 'o', 'u', 'y']

/-- The counting loop of `estimateSyllables` (App.jsx lines 521-530):
walks the word once, carrying `prevWasVowel`, and counts positions where
a vowel follows a non-vowel (a transition into a vowel run). -/
def vowelRunsAux : List Char → Bool → ℕ
  | [], _ => 0
  | c :: cs, prev =>
      (if isVowel c && !prev then 1 else 0) + vowelRunsAux cs (isVowel c)

/-- `estimateSyllables` from App.jsx lines 516-535: clean the word to
lower-case letters; length ≤ 3 means 1 syllable; otherwise count vowel
runs, subtract one for a trailing silent 'e' when the count exceeds 1,
add one for a trailing "le" after a non-vowel, and floor at 1. -/
def estimateSyllables (word : List Char) : ℕ :=
  let w := cleanLetters word
  if w.length ≤ 3 then 1
  else
    let count := vowelRunsAux w false
    let count := if endsWithChars ['e'] w && decide (1 < count)
      then count - 1 else count
    let count := if endsWithChars ['l', 'e'] w && decide (2 < w.length)
        && !isVowel (w.getD (w.length - 3) ' ')
      then count + 1 else count
    max 1 count

/-- Specification-side vowel-run counter, following the spec's words:
count transitions into vowel runs scanning left to right (positions
whose character is a vowel while the previous position, if any, is
not). -/
def vowelRunsSpec (w : List Char) : ℕ :=
  (((false :: w.map isVowel).zip (w.map isVowel)).filter
    (fun p => !p.1 && p.2)).length

/-- Specification-side syllable estimator, written from the spec's
wording (§4.2) with the index-free vowel-run counter. -/
def estimateSyllablesSpec (word : List Char) : ℕ :=
  let w := cleanLetters word
  if w.length ≤ 3 then 1
  else
    let count := vowelRunsSpec w
    let count := if endsWithChars ['e'] w && decide (1 < count)
      then count - 1 else count
    let count := if endsWithChars ['l', 'e'] w && decide (2 < w.length)
        && !isVowel (w.getD (w.length - 3) ' ')
      then count + 1 else count
    max 1 count

/-! ### Weight model: getWordWeight (App.jsx lines 538-560) -/

/-- Test of the regex `/[.!?]$/` against the raw token text: sentence
ending punctuation. -/
def endsSentencePunct (w : List Char) : Bool :=
  match w.getLast? with
  | some c => c ∈ ['.', '!', '?']
  | none => false

/-- Test of the regex `/[,;:—–]$/` (comma, semicolon, colon,
em-dash, en-dash) against the raw token text; the source additionally
re-checks `endsWith('—')` and `endsWith('–')`, which are the same two
dash characters. -/
def endsClausePunct (w : List Char) : Bool :=
  match w.getLast? with
  | some c => c ∈ [',', ';', ':', '—', '–']
  | none => false

/-- Model of JS `Math.max` on two rationals. -/
def ratMax (a b : ℚ) : ℚ := if a < b then b else a

/-- Model of JS `Math.min` on two rationals. -/
def ratMin (a b : ℚ) : ℚ := if a < b then a else b

/-- The base weight computed by `getWordWeight` before any pause
additions (App.jsx lines 539-543):
`syllables * 0.7 + max(1, cleanWord.length / 4) * 0.3`. -/
def baseWeight (w : List Char) : ℚ :=
  let cleanWord := cleanAlpha w
  let syllables : ℚ := estimateSyllables cleanWord
  let lengthFactor : ℚ := ratMax 1 ((cleanWord.length : ℚ) / 4)
  syllables * (7 / 10) + lengthFactor * (3 / 10)

/-- `getWordWeight` from App.jsx lines 538-560: base weight, plus 1.5
for sentence-ending punctuation, else 0.8 for clause punctuation, plus
1.0 when the next token starts a new line. -/
def getWordWeight (w : List Char) (isBeforeLineBreak : Bool) : ℚ :=
  let weight := baseWeight w
  let weight :=
    if endsSentencePunct w then weight + 3 / 2
    else if endsClausePunct w then weight + 4 / 5
    else weight
  if isBeforeLineBreak then weight + 1 else weight

/-! ### Formatting: parseWordFormatting (App.jsx lines 563-581) -/

/-- Result record of `parseWordFormatting`. -/
structure Fmt where
  text : List Char
  bold : Bool
  italic : Bool
deriving DecidableEq, Repr

/-- Model of JS `text.slice(2, -2)`. -/
def sliceTwo (cs : List Char) : List Char :=
  ((cs.drop 2).dropLast).dropLast

/-- Model of JS `text.slice(1, -1)`. -/
def sliceOne (cs : List Char) : List Char :=
  (cs.drop 1).dropLast

/-- `parseWordFormatting` from App.jsx lines 563-581: a token wrapped in
`**`/`__` is bold (delimiters stripped); afterwards a token wrapped in a
single `*`/`_` (and not starting with a double delimiter) is italic. -/
def parseWordFormatting (word : List Char) : Fmt :=
  let text := word
  let bold := false
  let italic := false
  let p1 :=
    if (startsWithChars ['*', '*'] text && endsWithChars ['*', '*'] text)
        || (startsWithChars ['_', '_'] text && endsWithChars ['_', '_'] text)
    then (sliceTwo text, true)
    else (text, bold)
  let text := p1.1
  let bold := p1.2
  let p2 :=
    if (startsWithChars ['*'] text && endsWithChars ['*'] text
          && !startsWithChars ['*', '*'] text)
        || (startsWithChars ['_'] text && endsWithChars ['_'] text
          && !startsWithChars ['_', '_'] text)
    then (sliceOne text, true)
    else (text, italic)
  ⟨p2.1, bold, p2.2⟩

/-! ### Script parser: parseScript (App.jsx lines 584-630) and
parseWords (lines 633-649) -/

/-- A parsed token: display text with formatting flags, the
line-start marker, and the owning speaker (attached when sections are
flattened, App.jsx lines 698-717). -/
structure Token where
  text : List Char
  bold : Bool
  italic : Bool
  isLineStart : Bool
  speaker : Option (List Char)
deriving DecidableEq, Repr

/-- A speaker section produced by `parseScript`. -/
structure Section where
  speaker : Option (List Char)
  content : List Char
deriving DecidableEq, Repr

/-- JS whitespace test for the characters that occur in scripts
(space, tab, newline, carriage return, form feed, vertical tab). -/
def isWs (c : Char) : Bool :=
  c = ' ' || c = '\t' || c = '\n' || c = '\r' || c = '\x0b' || c = '\x0c'

/-- Model of JS `String.prototype.trim` on character lists. -/
def trimChars (cs : List Char) : List Char :=
  ((cs.dropWhile isWs).reverse.dropWhile isWs).reverse

/-- Splits a character list at every occurrence of the given character,
keeping empty fragments, as JS `split('\n')` does. -/
def splitOnChar (sep : Char) : List Char → List (List Char)
  | [] => [[]]
  | c :: cs =>
    let r := splitOnChar sep cs
    if c = sep then [] :: r
    else
      match r with
      | [] => [[c]]
      | h :: t => (c :: h) :: t

/-- Model of `line.trim().split(/\s+/).filter(w => w.length > 0)`
(App.jsx line 638): the maximal whitespace-free fragments of a line. -/
def splitWords (line : List Char) : List (List Char) :=
  ((trimChars line).splitOnP isWs).filter (fun w => w ≠ [])

/-- The inner loop of `parseWords` for one line (App.jsx lines
637-645): each fragment is formatted and marked `isLineStart` exactly
when it is fragment 0 of a line with index above 0. -/
def lineTokens (lineIndex : ℕ) (line : List Char) : List Token :=
  (splitWords line).enum.map fun p =>
    let f := parseWordFormatting p.2
    ⟨f.text, f.bold, f.italic, decide (p.1 = 0 ∧ 0 < lineIndex), none⟩

/-- `parseWords` from App.jsx lines 633-649: split the content on
newlines and concatenate the per-line token lists. -/
def parseWords (content : List Char) : List Token :=
  ((splitOnChar '\n' content).enum.map (fun p => lineTokens p.1 p.2)).flatten

/-- Scan for the first `]` in the list; returns the characters before
it and the remainder after it.  Used to model the regex fragment
`([^\]]+)\]`. -/
def splitAtClose : List Char → Option (List Char × List Char)
  | [] => none
  | c :: cs =>
    if c = ']' then some ([], cs)
    else (splitAtClose cs).map (fun p => (c :: p.1, p.2))

/-- Attempt to match the regex `\[([^\]]+)\]:` with the `[` already
consumed: the name must be non-empty and the `]` must be followed by a
colon.  Returns the name on success. -/
def tryMarker (cs : List Char) : Option (List Char) :=
  match splitAtClose cs with
  | some (name, after) =>
    if name ≠ [] && after.headD ' ' = ':' && (after ≠ []) then some name
    else none
  | none => none

/-- A speaker marker with its character span, as collected by the
`while ((match = speakerRegex.exec(cleaned)))` loop (App.jsx lines
588-598). -/
structure Marker where
  speaker : List Char
  mstart : ℕ
  mend : ℕ
deriving DecidableEq, Repr

/-- Fuelled scan of the cleaned script for all non-overlapping speaker
markers, left to right, resuming after each match as the JS global
regex does. -/
def findMarkersAux : ℕ → List Char → ℕ → List Marker
  | 0, _, _ => []
  | _ + 1, [], _ => []
  | fuel + 1, c :: rest, pos =>
    if c = '[' then
      match tryMarker rest with
      | some name =>
        ⟨name, pos, pos + name.length + 3⟩ ::
          findMarkersAux fuel (rest.drop (name.length + 2))
            (pos + name.length + 3)
      | none => findMarkersAux fuel rest (pos + 1)
    else findMarkersAux fuel rest (pos + 1)

/-- All speaker markers of the cleaned script. -/
def findMarkers (cs : List Char) : List Marker :=
  findMarkersAux cs.length cs 0

/-- Scan for the first `==` in the list with no intervening newline,
returning the characters before it and the remainder after it; models
the lazy group of the regex `==(.*?)==`, whose dot does not match a
newline. -/
def findEqEq : List Char → Option (List Char × List Char)
  | [] => none
  | c :: cs =>
    match cs with
    | c2 :: cs2 =>
      if c = '=' && c2 = '=' then some ([], cs2)
      else if c = '\n' then none
      else (findEqEq cs).map (fun p => (c :: p.1, p.2))
    | [] => none

/-- Fuelled model of `script.replace(/==(.*?)==/g, '$1')` (App.jsx
line 585): each `==…==` pair on a single line has its delimiters
removed, scanning left to right. -/
def stripHighlightsAux : ℕ → List Char → List Char
  | 0, cs => cs
  | _ + 1, [] => []
  | fuel + 1, c :: cs =>
    match cs with
    | c2 :: cs2 =>
      if c = '=' && c2 = '=' then
        match findEqEq cs2 with
        | some (content, after) => content ++ stripHighlightsAux fuel after
        | none => c :: stripHighlightsAux fuel cs
      else c :: stripHighlightsAux fuel cs
    | [] => [c]

/-- `script.replace(/==(.*?)==/g, '$1')`. -/
def stripHighlights (cs : List Char) : List Char :=
  stripHighlightsAux cs.length cs

/-- Model of JS `cleaned.slice(a, b)` for `0 ≤ a ≤ b`. -/
def sliceChars (cs : List Char) (a b : ℕ) : List Char :=
  (cs.drop a).take (b - a)

/-- `parseScript` from App.jsx lines 584-630: strip highlight markers,
collect speaker markers; with no markers the whole trimmed text is one
anonymous section; otherwise any text before the first marker is an
anonymous section and each marker owns the trimmed text up to the next
marker, empty sections being dropped. -/
def parseScript (script : List Char) : List Section :=
  let cleaned := stripHighlights script
  let markers := findMarkers cleaned
  match markers with
  | [] =>
    if trimChars cleaned ≠ [] then [⟨none, trimChars cleaned⟩] else []
  | m0 :: _ =>
    let head :=
      if 0 < m0.mstart ∧ trimChars (sliceChars cleaned 0 m0.mstart) ≠ []
      then [⟨none, trimChars (sliceChars cleaned 0 m0.mstart)⟩]
      else []
    let rest := (markers.enum.map fun p =>
      let marker := p.2
      let contentEnd :=
        match markers.get? (p.1 + 1) with
        | some nxt => nxt.mstart
        | none => cleaned.length
      let content := trimChars (sliceChars cleaned marker.mend contentEnd)
      if content ≠ [] then [(⟨some marker.speaker, content⟩ : Section)]
      else []).flatten
    head ++ rest

/-- The flattening of sections into the global token list, attaching
each section's speaker to its tokens (App.jsx lines 698-717,
`allWords`). -/
def buildAllWords (sections : List Section) : List Token :=
  sections.flatMap fun sec =>
    (parseWords sec.content).map fun w => { w with speaker := sec.speaker }

/-! ### Schedule builder: wordTimings and wordStartTimes
(App.jsx lines 774-801) -/

/-- Model of `getSpeakerSpeed` (App.jsx lines 731-733):
`speakerSpeeds[speaker] || 1.0`.  A token without a speaker, a speaker
absent from the map, and a stored value of 0 (falsy in JS) all give the
default multiplier 1. -/
def getSpeakerSpeed (speeds : List Char → Option ℚ) :
    Option (List Char) → ℚ
  | none => 1
  | some s =>
    match speeds s with
    | none => 1
    | some v => if v = 0 then 1 else v

/-- The `weights` array of the `wordTimings` memo (App.jsx lines
775-785): each token's `getWordWeight` with the next token's
`isLineStart` as the pre-line-break flag, divided by its speaker's
speed multiplier. -/
def tokenWeights (speeds : List Char → Option ℚ) (allWords : List Token) :
    List ℚ :=
  allWords.enum.map fun p =>
    let isBeforeLineBreak :=
      match allWords.get? (p.1 + 1) with
      | some nw => nw.isLineStart
      | none => false
    getWordWeight p.2.text isBeforeLineBreak / getSpeakerSpeed speeds p.2.speaker

/-- `wordTimings` from App.jsx lines 774-790: normalize the weights
against the target duration, guarding the division with
`totalWeight > 0`. -/
def wordTimings (speeds : List Char → Option ℚ) (allWords : List Token)
    (targetTimeMs : ℚ) : List ℚ :=
  let weights := tokenWeights speeds allWords
  let totalWeight := weights.sum
  weights.map fun weight =>
    if 0 < totalWeight then weight / totalWeight * targetTimeMs else 0

/-- The cumulative loop of `wordStartTimes` (App.jsx lines 793-801). -/
def startTimesAux : List ℚ → ℚ → List ℚ
  | [], _ => []
  | d :: ds, acc => acc :: startTimesAux ds (acc + d)

/-- `wordStartTimes` from App.jsx lines 793-801: prefix sums of the
durations, first token starting at 0. -/
def wordStartTimes (speeds : List Char → Option ℚ) (allWords : List Token)
    (targetTimeMs : ℚ) : List ℚ :=
  startTimesAux (wordTimings speeds allWords targetTimeMs) 0

/-! ### Playback clock: getWordIndexAtTime (App.jsx lines 836-844) -/

/-- The backward search loop of `getWordIndexAtTime`: starting at the
given index, walk down until a start time at most `elapsed` is found;
the loop's fall-through result is index 0. -/
def getWordIndexAtTimeAux (startTimes : List ℚ) (elapsed : ℚ) : ℕ → ℕ
  | 0 => 0
  | i + 1 =>
    if startTimes.getD (i + 1) 0 ≤ elapsed then i + 1
    else getWordIndexAtTimeAux startTimes elapsed i

/-- `getWordIndexAtTime` from App.jsx lines 836-844: the last index
whose start time is at most `elapsed`, found by scanning from the end
backward, with 0 as the fallback. -/
def getWordIndexAtTime (startTimes : List ℚ) (elapsed : ℚ) : ℕ :=
  getWordIndexAtTimeAux startTimes elapsed (startTimes.length - 1)

/-! ### Scroll projector: getScrollPositionAtTime
(App.jsx lines 847-870) -/

/-- A token screen-position snapshot entry (top and vertical center in
pixels), as measured by `measureWordPositions`. -/
structure PosEntry where
  top : ℚ
  center : ℚ
deriving DecidableEq, Repr

/-- `getScrollPositionAtTime` from App.jsx lines 847-870, with the
container height passed explicitly.  `positions[i]?.center || 0`
evaluates to 0 both when the entry is missing and when the center is 0,
and the `|| currentY` fallback for the next entry also triggers on a
center of exactly 0 (JS falsiness), which the model reproduces. -/
def getScrollPositionAtTime (startTimes durations : List ℚ)
    (positions : List PosEntry) (containerHeight elapsed : ℚ) : ℚ :=
  if positions.length = 0 then 0
  else
    let currentIdx := getWordIndexAtTime startTimes elapsed
    let nextIdx := min (currentIdx + 1) (positions.length - 1)
    let currentWordStart := startTimes.getD currentIdx 0
    let currentWordDuration := durations.getD currentIdx 0
    let wordProgress :=
      if 0 < currentWordDuration then
        ratMin ((elapsed - currentWordStart) / currentWordDuration) 1
      else 0
    let currentY :=
      match positions.get? currentIdx with
      | some p => p.center
      | none => 0
    let nextY :=
      match positions.get? nextIdx with
      | some p => if p.center = 0 then currentY else p.center
      | none => currentY
    let interpolatedY := currentY + (nextY - currentY) * wordProgress
    ratMax 0 (interpolatedY - containerHeight / 2)

/-- Specification-side scroll projector, written from the spec's words
(§4.5): identical to the source except that the fractional progress is
`clamp((elapsed - startOffsetMs) / durationMs, 0, 1)`, i.e. also
clamped from below at 0. -/
def getScrollPositionAtTimeSpec (startTimes durations : List ℚ)
    (positions : List PosEntry) (containerHeight elapsed : ℚ) : ℚ :=
  if positions.length = 0 then 0
  else
    let currentIdx := getWordIndexAtTime startTimes elapsed
    let nextIdx := min (currentIdx + 1) (positions.length - 1)
    let currentWordStart := startTimes.getD currentIdx 0
    let currentWordDuration := durations.getD currentIdx 0
    let wordProgress :=
      if currentWordDuration = 0 then 0
      else
        ratMax 0 (ratMin ((elapsed - currentWordStart) / currentWordDuration) 1)
    let currentY :=
      match positions.get? currentIdx with
      | some p => p.center
      | none => 0
    let nextY :=
      match positions.get? nextIdx with
      | some p => if p.center = 0 then currentY else p.center
      | none => currentY
    let interpolatedY := currentY + (nextY - currentY) * wordProgress
    ratMax 0 (interpolatedY - containerHeight / 2)

/-! ### Playback state machine (App.jsx lines 661-1048)

The component state and the timeout machinery are modelled
operationally: pending `setTimeout` callbacks live in an environment
list keyed by fresh identifiers, `countdownTimeoutsRef` is the list of
identifiers the component tracks for cancellation, and firing a pending
timer removes it from the environment and runs its effect. -/

/-- The effect a scheduled timeout callback has on the component state,
one constructor per `setTimeout` in the source. -/
inductive TimerKind where
  | startTick2 | startTick1 | startGo
  | resumeScrollSnap | resumeTick2 | resumeTick1 | resumeGo
  | restartTick2 | restartTick1 | restartGo
deriving DecidableEq, Repr

/-- The React component state together with the timeout environment. -/
structure AppState where
  isPlaying : Bool
  currentWordIndex : Int
  showInput : Bool
  elapsedTime : ℚ
  countdown : Option ℕ
  pausedScrollY : ℚ
  countdownTimeouts : List ℕ
  startTime : Option ℚ
  pending : List (ℕ × TimerKind)
  nextId : ℕ
deriving DecidableEq, Repr

/-- The initial component state (App.jsx lines 667-674). -/
def initState : AppState :=
  ⟨false, -1, true, 0, none, 0, [], none, [], 0⟩

/-- Schedule a batch of timeouts: each gets a fresh identifier;
returns the new state and the identifiers in order. -/
def addTimers (s : AppState) (ks : List TimerKind) : AppState × List ℕ :=
  let ids := (List.range ks.length).map (· + s.nextId)
  ({ s with pending := s.pending ++ ids.zip ks,
            nextId := s.nextId + ks.length }, ids)

/-- `cancelCountdown` from App.jsx lines 938-942: clear exactly the
timeouts whose identifiers are tracked in `countdownTimeoutsRef`, empty
the tracking list, and hide the countdown. -/
def cancelCountdown (s : AppState) : AppState :=
  { s with pending := s.pending.filter (fun p => p.1 ∉ s.countdownTimeouts),
           countdownTimeouts := [],
           countdown := none }

/-- `handleStart` from App.jsx lines 921-936: no-op on an empty token
list; otherwise enter the countdown and schedule the three countdown
timeouts.  The source does NOT record these three identifiers in
`countdownTimeoutsRef`. -/
def handleStart (totalWords : ℕ) (s : AppState) : AppState :=
  if totalWords = 0 then s
  else
    let s := { s with showInput := false, currentWordIndex := 0,
                      countdown := some 3 }
    (addTimers s [.startTick2, .startTick1, .startGo]).1

/-- `handlePause` from App.jsx lines 944-958: cancel the tracked
countdown timeouts, store the frozen scroll offset (supplied here as a
parameter, read from the DOM in the source), and stop playing. -/
def handlePause (scrollY : ℚ) (s : AppState) : AppState :=
  let s := cancelCountdown s
  { s with pausedScrollY := scrollY, isPlaying := false }

/-- `handleResume` from App.jsx lines 960-1000: guarded by
`currentWordIndex >= 0`; cancels tracked timeouts, shows the countdown,
schedules the scroll-snap and three countdown timeouts and records all
four identifiers in `countdownTimeoutsRef`. -/
def handleResume (s : AppState) : AppState :=
  if 0 ≤ s.currentWordIndex then
    let s := cancelCountdown s
    let s := { s with countdown := some 3 }
    let r := addTimers s [.resumeScrollSnap, .resumeTick2, .resumeTick1,
                          .resumeGo]
    { r.1 with countdownTimeouts := r.2 }
  else s

/-- `handleRestart` from App.jsx lines 1002-1033. -/
def handleRestart (s : AppState) : AppState :=
  let s := cancelCountdown s
  let s := { s with isPlaying := false, currentWordIndex := 0,
                    elapsedTime := 0, pausedScrollY := 0,
                    countdown := some 3 }
  let r := addTimers s [.restartTick2, .restartTick1, .restartGo]
  { r.1 with countdownTimeouts := r.2 }

/-- `handleExit` from App.jsx lines 1035-1048: resets the playback
fields and the anchor.  The source does NOT call `cancelCountdown`
here, so `pending` and `countdownTimeouts` are left untouched. -/
def handleExit (s : AppState) : AppState :=
  { s with isPlaying := false, currentWordIndex := -1, elapsedTime := 0,
           showInput := true, pausedScrollY := 0, startTime := none }

/-- The effect of one timeout callback, run at wall-clock time `now`.
`startGo` is the closure at App.jsx lines 929-935 ending in
`startPlayback` (lines 910-919); `resumeGo` is the closure at lines
977-996 which re-anchors `startTimeRef = now - elapsedTime`;
`restartGo` is the closure at lines 1020-1030. -/
def runTimer (k : TimerKind) (now : ℚ) (s : AppState) : AppState :=
  match k with
  | .startTick2 => { s with countdown := some 2 }
  | .startTick1 => { s with countdown := some 1 }
  | .startGo =>
    { s with countdown := none, currentWordIndex := 0, elapsedTime := 0,
             startTime := some now, isPlaying := true }
  | .resumeScrollSnap => s
  | .resumeTick2 => { s with countdown := some 2 }
  | .resumeTick1 => { s with countdown := some 1 }
  | .resumeGo =>
    { s with countdown := none, startTime := some (now - s.elapsedTime),
             isPlaying := true }
  | .restartTick2 => { s with countdown := some 2 }
  | .restartTick1 => { s with countdown := some 1 }
  | .restartGo =>
    { s with countdown := none, startTime := some now, isPlaying := true }

/-- The environment fires a pending timeout: if the identifier is still
pending, remove it and run its effect; a cleared identifier is a
no-op. -/
def fireTimer (s : AppState) (id : ℕ) (now : ℚ) : AppState :=
  match s.pending.find? (fun p => p.1 = id) with
  | some pk => runTimer pk.2 now { s with
      pending := s.pending.filter (fun p => p.1 ≠ id) }
  | none => s

/-- One clock sample, `elapsed = Date.now() - startTimeRef.current`
(App.jsx line 876); `none` while the anchor is unset. -/
def sampleElapsed (s : AppState) (now : ℚ) : Option ℚ :=
  s.startTime.map (fun t => now - t)

/-- A paused state as left by a pause during a run: not playing, word
index 0, frozen elapsed time 5 ms, no pending timeouts, three timeout
identifiers already consumed by the initial countdown. -/
def pausedSample : AppState :=
  ⟨false, 0, false, 5, none, 0, [], none, [], 3⟩

/-! ## Theorems -/

/-! ### Claim C5: estimateSyllables matches the reference algorithm -/

theorem vowelRunsAux_eq_spec (w : List Char) : ∀ prev,
    vowelRunsAux w prev =
      (((prev :: w.map isVowel).zip (w.map isVowel)).filter
        (fun p => !p.1 && p.2)).length := by
  induction w with
  | nil => intro prev; rfl
  | cons c cs ih =>
    intro prev
    cases hv : isVowel c
    · cases prev <;> simp [vowelRunsAux, hv, ih false, List.zip, List.filter]
    · cases prev <;> simp [vowelRunsAux, hv, ih true, List.zip, List.filter] <;>
        omega

/-- Claim C5: for every input word, `estimateSyllables` equals the
reference algorithm of the spec (clean and lower-case, 1 syllable for
length ≤ 3, count transitions into vowel runs, silent-e decrement,
trailing-"le" increment, floor at 1); in particular it gives 1 for
"the", 2 for "hello" and 2 for "simple". -/
theorem C5_estimateSyllables_matches_reference :
    (∀ w, estimateSyllables w = estimateSyllablesSpec w) ∧
    estimateSyllables "the".data = 1 ∧
    estimateSyllables "hello".data = 2 ∧
    estimateSyllables "simple".data = 2 := by
  refine ⟨fun w => ?_, by decide, by decide, by decide⟩
  simp only [estimateSyllables, estimateSyllablesSpec, vowelRunsSpec,
    vowelRunsAux_eq_spec]

/-! ### Claim C6: punctuation pause additions -/

theorem baseWeight_append_dot (w : List Char) :
    baseWeight (w ++ ['.']) = baseWeight w := by
  have h : cleanAlpha (w ++ ['.']) = cleanAlpha w := by
    simp [cleanAlpha, List.filter_append, isAsciiLetter]
  simp only [baseWeight, h]

/-- Claim C6: the pause additions are decided on the raw token text
and are mutually exclusive — a sentence-ending token gets exactly +1.5
over its base weight, otherwise a clause-ending token gets exactly
+0.8, otherwise nothing is added; consequently appending a period to a
token with no trailing pause punctuation strictly increases its
weight, all else equal. -/
theorem C6_punctuation_pause_additions :
    (∀ w b, endsSentencePunct w = true →
      getWordWeight w b = baseWeight w + 3 / 2 + (if b then 1 else 0)) ∧
    (∀ w b, endsSentencePunct w = false → endsClausePunct w = true →
      getWordWeight w b = baseWeight w + 4 / 5 + (if b then 1 else 0)) ∧
    (∀ w b, endsSentencePunct w = false → endsClausePunct w = false →
      getWordWeight w b = baseWeight w + (if b then 1 else 0)) ∧
    (∀ w b, endsSentencePunct w = false → endsClausePunct w = false →
      getWordWeight w b < getWordWeight (w ++ ['.']) b) := by
  refine ⟨fun w b h1 => ?_, fun w b h1 h2 => ?_, fun w b h1 h2 => ?_,
    fun w b h1 h2 => ?_⟩
  · cases b <;> simp [getWordWeight, h1]
  · cases b <;> simp [getWordWeight, h1, h2]
  · cases b <;> simp [getWordWeight, h1, h2]
  · have hdot : endsSentencePunct (w ++ ['.']) = true := by
      simp [endsSentencePunct, List.getLast?_concat]
    have hbw := baseWeight_append_dot w
    cases b <;> simp [getWordWeight, h1, h2, hdot, hbw]

/-- Witness for C6 at concrete tokens. -/
theorem C6_punctuation_pause_additions_witness :
    getWordWeight "hi.".data false =
      baseWeight "hi.".data + 3 / 2 + (if (false : Bool) then 1 else 0) ∧
    getWordWeight "hi".data false < getWordWeight ("hi".data ++ ['.']) false :=
  ⟨C6_punctuation_pause_additions.1 "hi.".data false (by decide),
   C6_punctuation_pause_additions.2.2.2 "hi".data false (by decide) (by decide)⟩

/-! ### Claim C10: delimiter-only markdown tokens -/

/-- Claim C10: the markdown wrapper check accepts overlapping
delimiters — the one-character tokens "*" and "_" come out italic with
empty display text, and the two-character tokens "**" and "__" come out
bold with empty display text. -/
theorem C10_delimiter_only_tokens :
    parseWordFormatting ['*'] = ⟨[], false, true⟩ ∧
    parseWordFormatting ['_'] = ⟨[], false, true⟩ ∧
    parseWordFormatting ['*', '*'] = ⟨[], true, false⟩ ∧
    parseWordFormatting ['_', '_'] = ⟨[], true, false⟩ := by decide

/-! ### Claim C2: stale countdown timers after pause/exit -/

/-- Claim C2 (refuting the claim on the code as written): the three
countdown timeouts scheduled by `handleStart` are never recorded in
`countdownTimeoutsRef`, so a pause during the initial countdown cancels
nothing, and `handleExit` never clears tracked timeouts at all; in both
cases the stale 3-second "go" timer is still pending afterwards and
firing it sets `isPlaying` back to `true`. -/
theorem C2_stale_start_timer_resurrects_playback :
    (handlePause 0 (handleStart 3 initState)).isPlaying = false ∧
    ((handlePause 0 (handleStart 3 initState)).pending.map Prod.snd) =
      [.startTick2, .startTick1, .startGo] ∧
    (fireTimer (handlePause 0 (handleStart 3 initState)) 2 5000).isPlaying
      = true ∧
    (handleExit (handleStart 3 initState)).isPlaying = false ∧
    (fireTimer (handleExit (handleStart 3 initState)) 2 5000).isPlaying
      = true := by decide

/-! ### Claim C1: the schedule distributes the target duration -/

theorem one_le_estimateSyllables (w : List Char) :
    1 ≤ estimateSyllables w := by
  simp only [estimateSyllables]
  split
  · exact le_refl 1
  · exact le_max_left 1 _

theorem le_ratMax_left (a b : ℚ) : a ≤ ratMax a b := by
  unfold ratMax; split <;> linarith

theorem one_le_getWordWeight (w : List Char) (b : Bool) :
    1 ≤ getWordWeight w b := by
  have hbase : 1 ≤ baseWeight w := by
    have hs : (1 : ℚ) ≤ (estimateSyllables (cleanAlpha w) : ℚ) := by
      exact_mod_cast one_le_estimateSyllables (cleanAlpha w)
    have hf : (1 : ℚ) ≤ ratMax 1 (((cleanAlpha w).length : ℚ) / 4) :=
      le_ratMax_left 1 _
    simp only [baseWeight]
    nlinarith [hs, hf]
  simp only [getWordWeight]
  split_ifs <;> linarith

theorem sum_map_mul_const (l : List ℚ) (c : ℚ) :
    (l.map (fun w => w * c)).sum = l.sum * c := by
  induction l with
  | nil => simp
  | cons x xs ih => simp [ih, add_mul]

/-- Claim C1: for a non-empty token list, a positive target duration
and positive speaker speeds, every duration equals
`weight / sum(weights) * target` and the durations sum exactly to the
target (over the rationals). -/
theorem C1_schedule_distributes_target :
    ∀ (speeds : List Char → Option ℚ) (allWords : List Token) (target : ℚ),
      allWords ≠ [] → 0 < target →
      (∀ sp, 0 < getSpeakerSpeed speeds sp) →
      0 < (tokenWeights speeds allWords).sum ∧
      wordTimings speeds allWords target =
        (tokenWeights speeds allWords).map
          (fun w => w / (tokenWeights speeds allWords).sum * target) ∧
      (wordTimings speeds allWords target).sum = target := by
  intro speeds allWords target hne htarget hspeed
  have hpos : ∀ x ∈ tokenWeights speeds allWords, 0 < x := by
    intro x hx
    simp only [tokenWeights, List.mem_map] at hx
    obtain ⟨p, _, rfl⟩ := hx
    exact div_pos (lt_of_lt_of_le one_pos (one_le_getWordWeight _ _)) (hspeed _)
  have hlen : tokenWeights speeds allWords ≠ [] := by
    simp only [tokenWeights, ne_eq, List.map_eq_nil_iff]
    intro hc
    exact hne (by simpa using congrArg List.length hc)
  have htot : 0 < (tokenWeights speeds allWords).sum :=
    List.sum_pos _ hpos hlen
  have htne : (tokenWeights speeds allWords).sum ≠ 0 := ne_of_gt htot
  have heq : wordTimings speeds allWords target =
      (tokenWeights speeds allWords).map
        (fun w => w / (tokenWeights speeds allWords).sum * target) := by
    simp only [wordTimings, if_pos htot]
  refine ⟨htot, heq, ?_⟩
  rw [heq]
  have hmap : (tokenWeights speeds allWords).map
      (fun w => w / (tokenWeights speeds allWords).sum * target) =
      (tokenWeights speeds allWords).map
      (fun w => w * (target / (tokenWeights speeds allWords).sum)) := by
    apply List.map_congr_left
    intro x _
    field_simp
  rw [hmap, sum_map_mul_const, mul_div_assoc']
  field_simp

/-- Witness for C1 at a concrete one-token script. -/
theorem C1_schedule_distributes_target_witness :
    0 < (tokenWeights (fun _ => none)
      [⟨"hi".data, false, false, false, none⟩]).sum ∧
    wordTimings (fun _ => none) [⟨"hi".data, false, false, false, none⟩] 1000 =
      (tokenWeights (fun _ => none) [⟨"hi".data, false, false, false, none⟩]).map
        (fun w => w / (tokenWeights (fun _ => none)
          [⟨"hi".data, false, false, false, none⟩]).sum * 1000) ∧
    (wordTimings (fun _ => none)
      [⟨"hi".data, false, false, false, none⟩] 1000).sum = 1000 :=
  C1_schedule_distributes_target (fun _ => none)
    [⟨"hi".data, false, false, false, none⟩] 1000
    (by decide) (by norm_num)
    (fun sp => by cases sp <;> simp [getSpeakerSpeed])

/-! ### Claim C9: degenerate schedules -/

/-- Counterexample to claim C9 as stated: for a single-token list and
the negative target duration -1000 ms the schedule is [-1000], not
all-zero — the zero fallback triggers only on a non-positive weight
sum, not on a non-positive target. -/
theorem getWordWeight_single_a : getWordWeight ['a'] false = 1 := by
  have h1 : cleanAlpha ['a'] = ['a'] := by decide
  have h2 : estimateSyllables ['a'] = 1 := by decide
  have h3 : endsSentencePunct ['a'] = false := by decide
  have h4 : endsClausePunct ['a'] = false := by decide
  simp only [getWordWeight, baseWeight, h1, h2, h3, h4,
    List.length_singleton, Bool.false_eq_true, if_false]
  norm_num [ratMax]

theorem C9_counterexample :
    wordTimings (fun _ => none) [⟨['a'], false, false, false, none⟩] (-1000) =
      [-1000] ∧ (-1000 : ℚ) ≠ 0 := by
  constructor
  · norm_num [wordTimings, tokenWeights, List.enum, List.enumFrom,
      getSpeakerSpeed, getWordWeight_single_a]
  · norm_num

/-- Claim C9 (amended): with no tokens the schedule is the empty list
(trivially all-zero); with a zero target every duration is 0; and
whenever the weight sum is non-positive the guarded division makes
every duration 0, so building a schedule is total. -/
theorem C9_degenerate_schedule_total :
    (∀ speeds target, wordTimings speeds [] target = []) ∧
    (∀ speeds allWords, ∀ d ∈ wordTimings speeds allWords 0, d = 0) ∧
    (∀ speeds allWords target, (tokenWeights speeds allWords).sum ≤ 0 →
      ∀ d ∈ wordTimings speeds allWords target, d = 0) := by
  refine ⟨fun speeds target => ?_, fun speeds allWords d hd => ?_,
    fun speeds allWords target hsum d hd => ?_⟩
  · simp [wordTimings, tokenWeights]
  · simp only [wordTimings, List.mem_map] at hd
    obtain ⟨w, _, rfl⟩ := hd
    split <;> simp
  · simp only [wordTimings, List.mem_map] at hd
    obtain ⟨w, _, rfl⟩ := hd
    rw [if_neg (not_lt.mpr hsum)]

/-- Witness for C9 (amended) at a concrete token list. -/
theorem C9_degenerate_schedule_total_witness :
    wordTimings (fun _ => none) [] 5000 = [] ∧ (0 : ℚ) = 0 :=
  ⟨C9_degenerate_schedule_total.1 (fun _ => none) 5000,
   C9_degenerate_schedule_total.2.1 (fun _ => none)
     [⟨['a'], false, false, false, none⟩] 0
     (by norm_num [wordTimings, tokenWeights, List.enum, List.enumFrom,
       getSpeakerSpeed, getWordWeight_single_a])⟩

/-! ### Claim C3: getWordIndexAtTime is the clamped maximal index -/

theorem getWordIndexAtTimeAux_le (st : List ℚ) (e : ℚ) :
    ∀ k, getWordIndexAtTimeAux st e k ≤ k := by
  intro k
  induction k with
  | zero => simp [getWordIndexAtTimeAux]
  | succ i ih =>
    simp only [getWordIndexAtTimeAux]
    split
    · exact le_refl _
    · exact le_trans ih (Nat.le_succ i)

theorem getWordIndexAtTimeAux_mem (st : List ℚ) (e : ℚ)
    (h0 : st.getD 0 0 ≤ e) :
    ∀ k, st.getD (getWordIndexAtTimeAux st e k) 0 ≤ e := by
  intro k
  induction k with
  | zero => simpa [getWordIndexAtTimeAux] using h0
  | succ i ih =>
    simp only [getWordIndexAtTimeAux]
    split
    · assumption
    · exact ih

theorem getWordIndexAtTimeAux_max (st : List ℚ) (e : ℚ) :
    ∀ k i, i ≤ k → st.getD i 0 ≤ e → i ≤ getWordIndexAtTimeAux st e k := by
  intro k
  induction k with
  | zero => intro i hik _; simpa [getWordIndexAtTimeAux] using hik
  | succ j ih =>
    intro i hik hie
    simp only [getWordIndexAtTimeAux]
    split
    · exact hik
    · rcases Nat.lt_or_ge i (j + 1) with hlt | hge
      · exact ih i (Nat.lt_succ_iff.mp hlt) hie
      · have : i = j + 1 := le_antisymm hik hge
        subst this
        exact absurd hie (by assumption)

theorem getWordIndexAtTimeAux_mono (st : List ℚ) (e e' : ℚ) (h : e ≤ e') :
    ∀ k, getWordIndexAtTimeAux st e k ≤ getWordIndexAtTimeAux st e' k := by
  intro k
  induction k with
  | zero => simp [getWordIndexAtTimeAux]
  | succ i ih =>
    simp only [getWordIndexAtTimeAux]
    split
    · split
      · exact le_refl _
      · exact absurd (le_trans (by assumption) h) (by assumption)
    · split
      · exact le_trans (getWordIndexAtTimeAux_le st e i)
          (le_trans (Nat.le_succ i) (le_refl _))
      · exact ih

/-- Claim C3: for a non-empty schedule, `getWordIndexAtTime` stays in
`[0, n-1]`; whenever the first start offset is at most `t` (in
particular for every `t ≥ 0`, since the first offset is 0) it returns
the maximal index whose start offset is at most `t` — a token is active
from its own start offset inclusive; and it is monotone non-decreasing
in the time argument. -/
theorem C3_word_index_maximal_monotone :
    ∀ (st : List ℚ) (e : ℚ), st ≠ [] →
      getWordIndexAtTime st e < st.length ∧
      (st.getD 0 0 ≤ e →
        st.getD (getWordIndexAtTime st e) 0 ≤ e ∧
        ∀ i < st.length, st.getD i 0 ≤ e → i ≤ getWordIndexAtTime st e) ∧
      (∀ e', e ≤ e' → getWordIndexAtTime st e ≤ getWordIndexAtTime st e') := by
  intro st e hne
  have hlen : 1 ≤ st.length := by
    cases st with
    | nil => exact absurd rfl hne
    | cons _ _ => exact Nat.succ_le_succ (Nat.zero_le _)
  refine ⟨?_, fun h0 => ⟨getWordIndexAtTimeAux_mem st e h0 _, ?_⟩, fun e' he' =>
    getWordIndexAtTimeAux_mono st e e' he' _⟩
  · exact Nat.lt_of_le_of_lt (getWordIndexAtTimeAux_le st e (st.length - 1))
      (by omega)
  · intro i hi hie
    exact getWordIndexAtTimeAux_max st e (st.length - 1) i (by omega) hie

/-- Witness for C3 on the schedule [0, 10, 20] at time 10. -/
theorem C3_word_index_maximal_monotone_witness :
    getWordIndexAtTime [0, 10, 20] 10 < 3 ∧
    ([(0 : ℚ), 10, 20].getD (getWordIndexAtTime [0, 10, 20] 10) 0 ≤ 10) ∧
    1 ≤ getWordIndexAtTime [0, 10, 20] 10 ∧
    getWordIndexAtTime [0, 10, 20] 10 ≤ getWordIndexAtTime [0, 10, 20] 15 :=
  ⟨(C3_word_index_maximal_monotone [0, 10, 20] 10 (by simp)).1,
   ((C3_word_index_maximal_monotone [0, 10, 20] 10 (by simp)).2.1
     (by norm_num)).1,
   ((C3_word_index_maximal_monotone [0, 10, 20] 10 (by simp)).2.1
     (by norm_num)).2 1 (by norm_num) (by norm_num),
   (C3_word_index_maximal_monotone [0, 10, 20] 10 (by simp)).2.2 15
     (by norm_num)⟩

/-! ### Claim C7: scroll projection -/

/-- Counterexample to claim C7 as stated: the source computes the
fractional progress as `min(x, 1)` with no lower clamp at 0, so at the
(unreachable in playback) negative elapsed time -50 on a schedule with
decreasing screen centers the source extrapolates past the current
center (125) while the claimed clamped formula stays at it (100). -/
theorem C7_counterexample :
    getScrollPositionAtTime [0, 100] [100, 100] [⟨0, 100⟩, ⟨0, 50⟩] 0 (-50) =
      125 ∧
    getScrollPositionAtTimeSpec [0, 100] [100, 100] [⟨0, 100⟩, ⟨0, 50⟩] 0
      (-50) = 100 ∧
    getScrollPositionAtTime [0, 100] [100, 100] [⟨0, 100⟩, ⟨0, 50⟩] 0 (-50) ≠
      getScrollPositionAtTimeSpec [0, 100] [100, 100] [⟨0, 100⟩, ⟨0, 50⟩] 0
        (-50) := by
  have hidx : getWordIndexAtTime [0, 100] (-50) = 0 := by
    norm_num [getWordIndexAtTime, getWordIndexAtTimeAux]
  refine ⟨?_, ?_, ?_⟩ <;>
    norm_num [getScrollPositionAtTime, getScrollPositionAtTimeSpec, hidx,
      ratMin, ratMax]

/-- Claim C7 (amended): the source's progress lacks the lower clamp at
0 — it is `min(x, 1)` — but whenever the elapsed time is at least the
first start offset (in particular for every elapsed ≥ 0 on a real
schedule, whose first offset is 0) the two agree, so the scroll offset
equals the spec's clamped interpolation there; and the returned offset
is never negative, on all inputs. -/
theorem C7_scroll_projection_clamped :
    (∀ (st dur : List ℚ) (positions : List PosEntry) (h e : ℚ),
      st.getD 0 0 ≤ e →
      getScrollPositionAtTime st dur positions h e =
        getScrollPositionAtTimeSpec st dur positions h e) ∧
    (∀ (st dur : List ℚ) (positions : List PosEntry) (h e : ℚ),
      0 ≤ getScrollPositionAtTime st dur positions h e) := by
  constructor
  · intro st dur positions h e h0
    have hstart : st.getD (getWordIndexAtTime st e) 0 ≤ e :=
      getWordIndexAtTimeAux_mem st e h0 _
    simp only [getScrollPositionAtTime, getScrollPositionAtTimeSpec]
    by_cases hlen : positions.length = 0
    · rw [if_pos hlen, if_pos hlen]
    · rw [if_neg hlen, if_neg hlen]
      set cI := getWordIndexAtTime st e with hcI
      set d := dur.getD cI 0 with hd
      set x := (e - st.getD cI 0) / d with hx
      have hp : (if 0 < d then ratMin x 1 else 0) =
          (if d = 0 then 0 else ratMax 0 (ratMin x 1)) := by
        rcases lt_trichotomy d 0 with hneg | hzero | hpos
        · rw [if_neg (not_lt.mpr (le_of_lt hneg)), if_neg (ne_of_lt hneg)]
          have hxle : x ≤ 0 := by
            rw [hx]
            exact div_nonpos_of_nonneg_of_nonpos (by linarith) (le_of_lt hneg)
          have hmin : ratMin x 1 = x := by
            unfold ratMin
            exact if_pos (lt_of_le_of_lt hxle one_pos)
          rw [hmin]
          unfold ratMax
          rw [if_neg (not_lt.mpr hxle)]
        · rw [hzero]; simp
        · rw [if_pos hpos, if_neg (ne_of_gt hpos)]
          have hxge : 0 ≤ x := by
            rw [hx]
            exact div_nonneg (by linarith) (le_of_lt hpos)
          unfold ratMax ratMin
          split_ifs <;> linarith
      rw [hp]
  · intro st dur positions h e
    simp only [getScrollPositionAtTime]
    by_cases hlen : positions.length = 0
    · rw [if_pos hlen]
    · rw [if_neg hlen]
      exact le_ratMax_left 0 _

/-- Witness for C7 (amended) at a concrete in-range elapsed time. -/
theorem C7_scroll_projection_clamped_witness :
    getScrollPositionAtTime [0, 100] [100, 100] [⟨0, 100⟩, ⟨0, 50⟩] 0 50 =
      getScrollPositionAtTimeSpec [0, 100] [100, 100] [⟨0, 100⟩, ⟨0, 50⟩] 0
        50 ∧
    0 ≤ getScrollPositionAtTime [0, 100] [100, 100] [⟨0, 100⟩, ⟨0, 50⟩] 0 50 :=
  ⟨C7_scroll_projection_clamped.1 [0, 100] [100, 100] [⟨0, 100⟩, ⟨0, 50⟩] 0 50
     (by norm_num),
   C7_scroll_projection_clamped.2 [0, 100] [100, 100] [⟨0, 100⟩, ⟨0, 50⟩] 0 50⟩

/-! ### Claim C4: pause then resume preserves elapsed time -/

/-- Claim C4: from any paused state with frozen `elapsedTime = E` and
no pending timeouts, issuing the resume command and firing its four
scheduled timeouts in order makes the final timer set the anchor to
`now - E`, so the immediately following clock sample yields exactly
`E`, and a sample one tick `δ` later yields `E + δ` — no forward or
backward time jump. -/
theorem C4_resume_preserves_elapsed :
    ∀ (s : AppState) (T0 T1 T2 T3 δ : ℚ),
      s.pending = [] → 0 ≤ s.currentWordIndex →
      (fireTimer (fireTimer (fireTimer (fireTimer (handleResume s)
          s.nextId T0) (s.nextId + 1) T1) (s.nextId + 2) T2)
          (s.nextId + 3) T3).isPlaying = true ∧
      (fireTimer (fireTimer (fireTimer (fireTimer (handleResume s)
          s.nextId T0) (s.nextId + 1) T1) (s.nextId + 2) T2)
          (s.nextId + 3) T3).startTime = some (T3 - s.elapsedTime) ∧
      sampleElapsed (fireTimer (fireTimer (fireTimer (fireTimer
          (handleResume s) s.nextId T0) (s.nextId + 1) T1)
          (s.nextId + 2) T2) (s.nextId + 3) T3) T3 = some s.elapsedTime ∧
      sampleElapsed (fireTimer (fireTimer (fireTimer (fireTimer
          (handleResume s) s.nextId T0) (s.nextId + 1) T1)
          (s.nextId + 2) T2) (s.nextId + 3) T3) (T3 + δ) =
        some (s.elapsedTime + δ) := by
  intro s T0 T1 T2 T3 δ hpend hidx
  have h1 : handleResume s = { s with
      countdown := some 3,
      pending := [(s.nextId, .resumeScrollSnap), (s.nextId + 1, .resumeTick2),
        (s.nextId + 2, .resumeTick1), (s.nextId + 3, .resumeGo)],
      countdownTimeouts := [s.nextId, s.nextId + 1, s.nextId + 2,
        s.nextId + 3],
      nextId := s.nextId + 4 } := by
    simp only [handleResume, if_pos hidx, cancelCountdown, addTimers, hpend]
    simp [List.range_succ]
    constructor <;> omega
  rw [h1]
  have e0 : (s.nextId + 1 = s.nextId) = False := by simp
  have e1 : (s.nextId + 2 = s.nextId) = False := by simp
  have e2 : (s.nextId + 3 = s.nextId) = False := by simp
  have e3 : (s.nextId + 2 = s.nextId + 1) = False := by simp
  have e4 : (s.nextId + 3 = s.nextId + 1) = False := by simp
  have e5 : (s.nextId + 3 = s.nextId + 2) = False := by simp
  simp only [fireTimer, List.find?, List.filter, e0, e1, e2, e3, e4, e5,
    decide_True, decide_False, runTimer, sampleElapsed]
  simp [sampleElapsed, runTimer]
  ring

/-- Witness for C4 from the concrete paused state `pausedSample`. -/
theorem C4_resume_preserves_elapsed_witness :
    (fireTimer (fireTimer (fireTimer (fireTimer (handleResume pausedSample)
        pausedSample.nextId 1000) (pausedSample.nextId + 1) 1100)
        (pausedSample.nextId + 2) 1200) (pausedSample.nextId + 3)
        1300).isPlaying = true ∧
    (fireTimer (fireTimer (fireTimer (fireTimer (handleResume pausedSample)
        pausedSample.nextId 1000) (pausedSample.nextId + 1) 1100)
        (pausedSample.nextId + 2) 1200) (pausedSample.nextId + 3)
        1300).startTime = some (1300 - pausedSample.elapsedTime) ∧
    sampleElapsed (fireTimer (fireTimer (fireTimer (fireTimer
        (handleResume pausedSample) pausedSample.nextId 1000)
        (pausedSample.nextId + 1) 1100) (pausedSample.nextId + 2) 1200)
        (pausedSample.nextId + 3) 1300) 1300 = some pausedSample.elapsedTime ∧
    sampleElapsed (fireTimer (fireTimer (fireTimer (fireTimer
        (handleResume pausedSample) pausedSample.nextId 1000)
        (pausedSample.nextId + 1) 1100) (pausedSample.nextId + 2) 1200)
        (pausedSample.nextId + 3) 1300) (1300 + 16) =
      some (pausedSample.elapsedTime + 16) :=
  C4_resume_preserves_elapsed pausedSample 1000 1100 1200 1300 16 rfl
    (by norm_num [pausedSample])

/-! ### Claim C8: sections, tokens and line starts -/

theorem flatten_getElem_offset {α : Type} :
    ∀ (L : List (List α)) (i j : ℕ), j < (L.getD i []).length →
      L.flatten[(((L.take i).map List.length).sum + j)]? = (L.getD i [])[j]? := by
  intro L
  induction L with
  | nil =>
    intro i j hj
    simp [List.getD] at hj
  | cons x xs ih =>
    intro i j hj
    cases i with
    | zero =>
      simp only [List.take_zero, List.map_nil, List.sum_nil, Nat.zero_add,
        List.flatten_cons, List.getD_cons_zero] at hj ⊢
      exact List.getElem?_append_left hj
    | succ i =>
      simp only [List.take_succ_cons, List.map_cons, List.sum_cons,
        List.flatten_cons, List.getD_cons_succ] at hj ⊢
      rw [Nat.add_assoc, List.getElem?_append_right (Nat.le_add_right _ _),
        Nat.add_sub_cancel_left]
      exact ih i j hj

theorem lineTokens_length (li : ℕ) (line : List Char) :
    (lineTokens li line).length = (splitWords line).length := by
  simp [lineTokens]

theorem lineTokens_getElem (li wi : ℕ) (line : List Char) :
    (lineTokens li line)[wi]? = ((splitWords line)[wi]?).map
      (fun w =>
        (⟨(parseWordFormatting w).text, (parseWordFormatting w).bold,
          (parseWordFormatting w).italic, decide (wi = 0 ∧ 0 < li),
          none⟩ : Token)) := by
  simp only [lineTokens, List.getElem?_map, List.getElem?_enum,
    Option.map_map]
  cases (splitWords line)[wi]? <;> rfl

theorem parseWords_getElem :
    ∀ (ls : List (List Char)) (k li wi : ℕ),
      wi < (splitWords (ls.getD li [])).length →
      ((ls.enumFrom k).map (fun p => lineTokens p.1 p.2)).flatten[
        ((((ls.take li).map (fun l => (splitWords l).length)).sum + wi))]? =
      ((splitWords (ls.getD li []))[wi]?).map
        (fun w =>
          (⟨(parseWordFormatting w).text, (parseWordFormatting w).bold,
            (parseWordFormatting w).italic, decide (wi = 0 ∧ 0 < k + li),
            none⟩ : Token)) := by
  intro ls
  induction ls with
  | nil =>
    intro k li wi hwi
    have : splitWords (List.getD [] li []) = [] := by
      cases li <;> rfl
    rw [this] at hwi
    simp at hwi
  | cons line ls ih =>
    intro k li wi hwi
    cases li with
    | zero =>
      simp only [List.getD_cons_zero] at hwi ⊢
      simp only [List.enumFrom_cons, List.map_cons, List.flatten_cons,
        List.take_zero, List.map_nil, List.sum_nil, Nat.zero_add]
      rw [List.getElem?_append_left (by rw [lineTokens_length]; exact hwi),
        lineTokens_getElem]
      simp
    | succ li =>
      simp only [List.getD_cons_succ] at hwi ⊢
      simp only [List.enumFrom_cons, List.map_cons, List.flatten_cons,
        List.take_succ_cons, List.sum_cons]
      rw [Nat.add_assoc, List.getElem?_append_right
          (by rw [lineTokens_length]; exact Nat.le_add_right _ _)]
      rw [lineTokens_length, Nat.add_sub_cancel_left]
      rw [ih (k + 1) li wi hwi]
      have harith : k + 1 + li = k + (li + 1) := by omega
      rw [harith]

/-- Claim C8: parsing "[A]:\nhello world\n\n[B]:\nbye" yields exactly
the sections for speakers A and B and the flat token sequence hello,
world, bye with no line-start flags; and in general the token produced
for word `wi` of line `li` of a section's content has
`isLineStart = true` exactly when it is the first token of its line
(`wi = 0`) and that line is not the section's first line (`li > 0`). -/
theorem C8_sections_tokens_line_starts :
    parseScript "[A]:\nhello world\n\n[B]:\nbye".data =
      [⟨some "A".data, "hello world".data⟩,
       ⟨some "B".data, "bye".data⟩] ∧
    buildAllWords (parseScript "[A]:\nhello world\n\n[B]:\nbye".data) =
      [⟨"hello".data, false, false, false, some "A".data⟩,
       ⟨"world".data, false, false, false, some "A".data⟩,
       ⟨"bye".data, false, false, false, some "B".data⟩] ∧
    (∀ (content : List Char) (li wi : ℕ),
      wi < (splitWords ((splitOnChar '\n' content).getD li [])).length →
      ∃ tok : Token,
        (parseWords content)[
          ((((splitOnChar '\n' content).take li).map
            (fun l => (splitWords l).length)).sum + wi)]? = some tok ∧
        (tok.isLineStart = true ↔ (wi = 0 ∧ 0 < li))) := by
  refine ⟨by decide, by decide, ?_⟩
  intro content li wi hwi
  have h := parseWords_getElem (splitOnChar '\n' content) 0 li wi hwi
  obtain ⟨w, hw⟩ : ∃ w,
      (splitWords ((splitOnChar '\n' content).getD li []))[wi]? = some w := by
    rw [List.getElem?_eq_getElem hwi]
    exact ⟨_, rfl⟩
  rw [hw] at h
  refine ⟨⟨(parseWordFormatting w).text, (parseWordFormatting w).bold,
    (parseWordFormatting w).italic, decide (wi = 0 ∧ 0 < 0 + li), none⟩,
    ?_, ?_⟩
  · rw [show parseWords content =
        (((splitOnChar '\n' content).enumFrom 0).map
          (fun p => lineTokens p.1 p.2)).flatten from rfl]
    rw [h]
    rfl
  · simp [decide_eq_true_iff]

/-- Witness for C8's general line-start characterization on the
two-line content "a\nb": word 0 of line 1 is line-start. -/
theorem C8_sections_tokens_line_starts_witness :
    0 < (splitWords ((splitOnChar '\n' "a\nb".data).getD 1 [])).length ∧
    ∃ tok : Token,
      (parseWords "a\nb".data)[
        ((((splitOnChar '\n' "a\nb".data).take 1).map
          (fun l => (splitWords l).length)).sum + 0)]? = some tok ∧
      (tok.isLineStart = true ↔ (0 = 0 ∧ 0 < 1)) :=
  ⟨by decide,
   C8_sections_tokens_line_starts.2.2 "a\nb".data 1 0 (by decide)⟩

end Teleprompter
